import Mathlib

/-!
Verification of the core of `sci-file-viewer` (`src/main.rs`), a terminal
file browser with a numeric-data chart pipeline.

Modelling conventions:
* `f64` values are modelled as exact rationals (`ℚ`).  The IEEE-754 rounding of
  arithmetic, overflow-to-infinity on parse, and subnormal behaviour are not
  modelled; every concrete input appearing below is exactly representable and
  all modelled operations on them agree with the `f64` computation.
  `NaN`/`inf` appear explicitly in the token-parsing model (`FVal`).
* `usize` is modelled as `ℕ`; Rust `saturating_sub` is `Nat` subtraction, and a
  `usize` subtraction that can underflow is modelled as the checked operation
  (`Option`, `none` on underflow), matching the fact that the Rust program is
  not well-defined there (debug panic / release wrap).
* Strings handed to the numeric extractor are modelled as `List Char`; the
  ASCII fragment of `char::is_whitespace`, `str::trim` and `to_lowercase` is
  used (all inputs of interest are ASCII).
* Filesystem reads are kept abstract: functions that consume a directory
  listing take the raw entry list as an argument; key-handler branches whose
  effect depends on the filesystem are modelled as an explicit pending
  `FsAct` request carrying the state mutated so far.
-/

/-! ## Character-level utilities (ASCII fragment of the `str` API) -/

/-- ASCII whitespace, the fragment of Rust `char::is_whitespace` relevant to
the modelled inputs. -/
def isWS (c : Char) : Bool :=
  c = ' ' || c = '\t' || c = '\n' || c = '\r' || c = '\x0b' || c = '\x0c'

/-- Rust `str::trim`: remove leading and trailing whitespace. -/
def trimChars (l : List Char) : List Char :=
  ((l.dropWhile isWS).reverse.dropWhile isWS).reverse

/-- Split a character list at every character satisfying `p`, keeping empty
chunks (Rust `str::split` semantics). -/
def splitOnPred (p : Char → Bool) (l : List Char) : List (List Char) :=
  l.foldr
    (fun c acc =>
      if p c then [] :: acc
      else
        match acc with
        | h :: t => (c :: h) :: t
        | [] => [[c]])
    [[]]

/-- Strip one trailing `'\r'` (Rust `str::lines` strips a trailing carriage
return from each line). -/
def stripCR (l : List Char) : List Char :=
  if l.getLast? = some '\r' then l.dropLast else l

/-- Rust `str::lines`: split on `'\n'`, drop the empty trailing piece produced
by a final newline, and strip a trailing `'\r'` from each line. -/
def rustLines (s : List Char) : List (List Char) :=
  if s = [] then []
  else
    (if s.getLast? = some '\n'
      then (splitOnPred (fun c => c = '\n') s).dropLast
      else splitOnPred (fun c => c = '\n') s).map stripCR

/-- The separator predicate of `parse_chart_data` (main.rs:306):
`c.is_whitespace() || c == ','`. -/
def isSep (c : Char) : Bool := isWS c || c = ','

/-- main.rs:305-308: `line.split(separator).filter(|s| !s.is_empty())`. -/
def tokenize (l : List Char) : List (List Char) :=
  (splitOnPred isSep l).filter (fun t => !t.isEmpty)

/-! ## Model of `str::parse::<f64>` (the grammar of `f64::from_str`) -/

/-- Numeric value of one ASCII digit. -/
def digitVal (c : Char) : ℕ := c.toNat - '0'.toNat

/-- Numeric value of a digit string (most significant first). -/
def natOfDigits (ds : List Char) : ℕ := ds.foldl (fun a c => 10 * a + digitVal c) 0

/-- A syntactically parsed finite decimal: sign, integer digits, fraction
digits (with their count) and decimal exponent.  Kept syntactic so that the
parser is fully kernel-computable; `DecNum.toRat` gives its exact value. -/
structure DecNum where
  neg : Bool
  mantInt : ℕ
  mantFrac : ℕ
  fracLen : ℕ
  ex : ℤ
deriving DecidableEq

/-- Exact rational value of a parsed decimal. -/
def DecNum.toRat (d : DecNum) : ℚ :=
  (if d.neg then -1 else 1) * ((d.mantInt : ℚ) + (d.mantFrac : ℚ) / 10 ^ d.fracLen)
    * (10 : ℚ) ^ d.ex

/-- Result of parsing one token as `f64`: a finite decimal, or one of the
special values.  `f64::is_finite` is false exactly on `nan`/`inf`/`neginf`. -/
inductive FVal where
  | finite (d : DecNum)
  | nan
  | inf
  | neginf
deriving DecidableEq

/-- The grammar of Rust `f64::from_str`:
`Sign? ( 'inf' | 'infinity' | 'nan' | Number )` with
`Number ::= (Digit+ | Digit+ '.' Digit* | Digit* '.' Digit+) Exp?` and
`Exp ::= ('e'|'E') Sign? Digit+`; the special words are case-insensitive.
The numeric value is kept exact (see the header note on rounding/overflow). -/
def parseF64 (tok : List Char) : Option FVal :=
  let sgn : Bool × List Char :=
    match tok with
    | '+' :: r => (false, r)
    | '-' :: r => (true, r)
    | r => (false, r)
  let neg := sgn.1
  let rest := sgn.2
  let low := rest.map Char.toLower
  if low = "inf".data ∨ low = "infinity".data then
    some (if neg then FVal.neginf else FVal.inf)
  else if low = "nan".data then some FVal.nan
  else
    let ipSplit := rest.span Char.isDigit
    let ip := ipSplit.1
    let fpSplit : Option (List Char) × List Char :=
      match ipSplit.2 with
      | '.' :: r => ((r.span Char.isDigit).1, (r.span Char.isDigit).2)
      | r => (none, r)
    let fp := fpSplit.1.getD []
    let digitsOk : Bool := !ip.isEmpty || (fpSplit.1.isSome && !fp.isEmpty)
    let mant : DecNum :=
      { neg := neg, mantInt := natOfDigits ip, mantFrac := natOfDigits fp,
        fracLen := fp.length, ex := 0 }
    match fpSplit.2 with
    | [] => if digitsOk then some (FVal.finite mant) else none
    | e :: r3 =>
      if e = 'e' ∨ e = 'E' then
        let esgn : Bool × List Char :=
          match r3 with
          | '+' :: r => (false, r)
          | '-' :: r => (true, r)
          | r => (false, r)
        let eds := esgn.2.span Char.isDigit
        if digitsOk && !eds.1.isEmpty && eds.2.isEmpty then
          some (FVal.finite
            { mant with
              ex := if esgn.1 then -(natOfDigits eds.1 : ℤ) else (natOfDigits eds.1 : ℤ) })
        else none
      else none

/-! ## `parse_chart_data` (main.rs:293-354): numeric series extraction -/

/-- The per-line body of the extraction loop (main.rs:296-317), at the
syntactic level: trim; skip empty/`#`/`;` lines; split on whitespace or
commas dropping empty tokens; require at least two tokens whose first two
parse as finite values. -/
def lineSampleD (raw : List Char) : Option (DecNum × DecNum) :=
  let line := trimChars raw
  if line.isEmpty || line.head? = some '#' || line.head? = some ';' then none
  else
    match tokenize line with
    | t0 :: t1 :: _ =>
      match parseF64 t0, parseF64 t1 with
      | some (FVal.finite x), some (FVal.finite y) => some (x, y)
      | _, _ => none
    | _ => none

/-- The per-line sample with its numeric value (`(x, y)` pushed at
main.rs:316). -/
def lineSample (raw : List Char) : Option (ℚ × ℚ) :=
  (lineSampleD raw).map (fun p => (p.1.toRat, p.2.toRat))

/-- The accumulation loop of `parse_chart_data` (main.rs:294-318): successes
are pushed onto `data` in line order (pushing the content of the optional
per-line sample is appending `Option.toList`). -/
def parse_chart_samples (content : List Char) : List (ℚ × ℚ) :=
  (rustLines content).foldl (fun data line => data ++ (lineSample line).toList) []

/-- The resulting chart data of a file load: `open_file` first clears
`chart_data` (main.rs:205), and `parse_chart_data` stores the extracted
samples only when at least 2 were found (main.rs:321, 352); otherwise the
chart data stays empty. -/
def parse_chart_data (content : List Char) : List (ℚ × ℚ) :=
  let data := parse_chart_samples content
  if 2 ≤ data.length then data else []

/-- Fold of `min` over a list (main.rs:323: `fold(f64::INFINITY, f64::min)`).
For the nonempty lists reaching this code the fold starting at `+∞` equals the
fold starting at the first element; the `[]` default is never used (the call
site is guarded by `data.len() >= 2`). -/
def foldMinQ (l : List ℚ) : ℚ :=
  match l with
  | [] => 0
  | a :: t => t.foldl min a

/-- Fold of `max` over a list (main.rs:324-327). -/
def foldMaxQ (l : List ℚ) : ℚ :=
  match l with
  | [] => 0
  | a :: t => t.foldl max a

/-- Bounds computation of `parse_chart_data` (main.rs:322-351): extrema per
axis, 5% padding of the range on each side, and a unit window `[v-1, v+1]`
when an axis is degenerate (`max == min`).  The `f64` literal `0.05` is
modelled as `5/100` (see header). -/
def compute_bounds (data : List (ℚ × ℚ)) : (ℚ × ℚ) × (ℚ × ℚ) :=
  let x_min := foldMinQ (data.map Prod.fst)
  let x_max := foldMaxQ (data.map Prod.fst)
  let y_min := foldMinQ (data.map Prod.snd)
  let y_max := foldMaxQ (data.map Prod.snd)
  let x_padding := |x_max - x_min| * (5 / 100)
  let y_padding := |y_max - y_min| * (5 / 100)
  let x_bounds :=
    if x_max = x_min then (x_min - 1, x_max + 1) else (x_min - x_padding, x_max + x_padding)
  let y_bounds :=
    if y_max = y_min then (y_min - 1, y_max + 1) else (y_min - y_padding, y_max + y_padding)
  (x_bounds, y_bounds)

/-! ## `downsample_with_peaks` (main.rs:357-414) -/

/-- Default sample handed to `List.getD`; every index used by the model is
provably in bounds, mirroring the in-bounds `data[i]` accesses of the source. -/
def dPt : ℚ × ℚ := (0, 0)

/-- The min/max scan over one bucket (main.rs:380-394): indices
`start ≤ j < e`, first occurrence wins on ties; returns
`(min_idx, max_idx)`. -/
def scanMinMax (data : List (ℚ × ℚ)) (start e : ℕ) : ℕ × ℕ :=
  (List.range' start (e - start)).foldl
    (fun mm j =>
      let mi := if (data.getD j dPt).2 < (data.getD mm.1 dPt).2 then j else mm.1
      let ma := if (data.getD mm.2 dPt).2 < (data.getD j dPt).2 then j else mm.2
      (mi, ma))
    (start, start)

/-- One iteration of the bucket loop (main.rs:370-408): float bucket edges
truncated to `usize` (the values are nonnegative, so the `as usize` cast is
the floor), `end` capped at `len - 1`, bucket skipped when `start >= end`;
otherwise the bucket's min and max samples are emitted in index order, only
one when the two indices coincide. -/
def bucketPick (data : List (ℚ × ℚ)) (bucket_size : ℚ) (i : ℕ) : List (ℚ × ℚ) :=
  let start := (⌊(1 : ℚ) + ((i - 1 : ℕ) : ℚ) * bucket_size⌋).toNat
  let e := min (⌊(1 : ℚ) + (i : ℚ) * bucket_size⌋).toNat (data.length - 1)
  if start ≥ e then []
  else
    let mm := scanMinMax data start e
    if mm.1 < mm.2 then [data.getD mm.1 dPt, data.getD mm.2 dPt]
    else if mm.2 < mm.1 then [data.getD mm.2 dPt, data.getD mm.1 dPt]
    else [data.getD mm.1 dPt]

/-- `downsample_with_peaks` (main.rs:357-414).  The fast path returns the
input when `len <= target`.  Otherwise the source computes
`(data.len() - 2) / (target_points - 2)` on `usize`; when `target_points < 2`
(or `data.len() < 2`, possible only together with `target_points < 2`) that
unsigned subtraction underflows and the function is not well-defined, modelled
as `none`.  For `target_points = 2` the `f64` bucket size is `∞` but the
bucket loop `1..(target_points-1)` is empty, so its value is irrelevant (the
`ℚ` division returns 0 there, equally unused). -/
def downsample_with_peaks (data : List (ℚ × ℚ)) (target_points : ℕ) :
    Option (List (ℚ × ℚ)) :=
  if data.length ≤ target_points then some data
  else if data.length < 2 ∨ target_points < 2 then none
  else
    let bucket_size : ℚ := ((data.length - 2 : ℕ) : ℚ) / ((target_points - 2 : ℕ) : ℚ)
    some (data.getD 0 dPt ::
      ((List.range' 1 (target_points - 2)).flatMap (bucketPick data bucket_size) ++
        [data.getD (data.length - 1) dPt]))

/-! ## Directory listing (`refresh_directory`, main.rs:139-174) -/

/-- A browser entry (main.rs:20-24); the `path` field is irrelevant to the
ordering claims and omitted. -/
structure FileEntry where
  name : String
  is_dir : Bool
deriving DecidableEq

/-- The synthetic parent entry pushed first when the current path has a parent
(main.rs:145-151). -/
def parentEntry : FileEntry := { name := "..", is_dir := true }

/-- The sort comparator of main.rs:166-170 as a boolean `le`: directories
before files, case-insensitive name comparison within a group
(`to_lowercase` restricted to its ASCII action, `String` order being the
byte/char lexicographic order either way). -/
def entry_le (a b : FileEntry) : Bool :=
  match a.is_dir, b.is_dir with
  | true, false => true
  | false, true => false
  | _, _ => decide (a.name.toLower ≤ b.name.toLower)

/-- `refresh_directory`'s listing construction (main.rs:144-173): the optional
`".."` entry first, then the read entries sorted by `entry_le`.  `hasParent`
abstracts `current_directory.parent().is_some()`, `items` the raw (unsorted)
successful reads of `fs::read_dir`. -/
def refresh_directory (hasParent : Bool) (items : List FileEntry) : List FileEntry :=
  (if hasParent then [parentEntry] else []) ++ items.mergeSort entry_le

/-! ## Application state and key handling (`run_app`, main.rs:447-586) -/

/-- The portion of `App` (main.rs:26-59) that the key-handling claims are
about.  `file_content` is represented by its length (scroll arithmetic only
uses `file_content.len()`). -/
structure AppState where
  entries : List FileEntry
  selected_index : ℕ
  file_tree_scroll : ℕ
  file_content_len : ℕ
  scroll_offset : ℕ
  visible_height : ℕ
  show_chart : Bool
  needs_resize : Bool
  show_recent_files : Bool
  use_nerd_fonts : Bool
  recent_files : List String
  recent_files_selected : ℕ
deriving DecidableEq

/-- The key codes distinguished by `run_app`. -/
inductive Key where
  | up
  | down
  | enter
  | backspace
  | esc
  | home
  | endKey
  | pageUp
  | pageDown
  | char (c : Char)
deriving DecidableEq

/-- A pending filesystem-dependent action: the branches of `run_app` whose
effect depends on disk contents.  The step function returns the state as
mutated so far together with the pending action. -/
inductive FsAct where
  | selectEntry (idx : ℕ)
  | ascendParent
  | goStartup
  | goHome
  | refreshDir
  | openRecent (path : String)
deriving DecidableEq

/-- Outcome of one key event: a pure next state, quit (the `'q'` branch, which
also persists the last directory), or a state plus a pending filesystem
action. -/
inductive StepOut where
  | next (s : AppState)
  | quitApp (s : AppState)
  | fs (s : AppState) (a : FsAct)
deriving DecidableEq

/-- The state carried by a step outcome. -/
def outState : StepOut → AppState
  | StepOut.next s => s
  | StepOut.quitApp s => s
  | StepOut.fs s _ => s

/-- The normal-mode key dispatch (main.rs:494-583), written as the equivalent
chain of key-code tests.  Scroll notes: `'j'` is `saturating_add(1)` with no
upper clamp (main.rs:520-526; `usize::MAX` saturation is unreachable and not
modelled); `'k'`/`'u'` use `saturating_sub`; `'d'` clamps to
`max_scroll = len.saturating_sub(visible_height)`; `End` jumps to that same
value; `needs_resize` is set by `'j'`/`'k'` only when the offset changed. -/
def normal_step (s : AppState) (k : Key) : StepOut :=
  if k = Key.char 'q' then StepOut.quitApp s
  else if k = Key.up then
    StepOut.next
      (if 0 < s.selected_index then { s with selected_index := s.selected_index - 1 } else s)
  else if k = Key.down then
    StepOut.next
      (if s.selected_index < s.entries.length - 1 then
        { s with selected_index := s.selected_index + 1 }
      else s)
  else if k = Key.enter then StepOut.fs s (FsAct.selectEntry s.selected_index)
  else if k = Key.backspace then StepOut.fs s FsAct.ascendParent
  else if k = Key.char 'j' then
    StepOut.next
      { s with scroll_offset := s.scroll_offset + 1,
               needs_resize := if s.scroll_offset + 1 ≠ s.scroll_offset then true else s.needs_resize }
  else if k = Key.char 'k' then
    StepOut.next
      { s with scroll_offset := s.scroll_offset - 1,
               needs_resize := if s.scroll_offset - 1 ≠ s.scroll_offset then true else s.needs_resize }
  else if k = Key.char 'u' ∨ k = Key.pageUp then
    StepOut.next
      { s with scroll_offset := s.scroll_offset - s.visible_height, needs_resize := true }
  else if k = Key.char 'd' ∨ k = Key.pageDown then
    StepOut.next
      { s with
          scroll_offset :=
            min (s.scroll_offset + s.visible_height)
              (s.file_content_len - s.visible_height),
          needs_resize := true }
  else if k = Key.home then
    StepOut.next { s with scroll_offset := 0, needs_resize := true }
  else if k = Key.endKey then
    StepOut.next
      { s with scroll_offset := s.file_content_len - s.visible_height, needs_resize := true }
  else if k = Key.char '.' then StepOut.fs s FsAct.goStartup
  else if k = Key.char '~' then StepOut.fs s FsAct.goHome
  else if k = Key.char 'c' then
    StepOut.next { s with show_chart := !s.show_chart, needs_resize := true }
  else if k = Key.char 'n' then
    StepOut.next { s with use_nerd_fonts := !s.use_nerd_fonts, needs_resize := true }
  else if k = Key.char 'r' then StepOut.fs s FsAct.refreshDir
  else if k = Key.char 'h' then
    StepOut.next { s with show_recent_files := true, recent_files_selected := 0 }
  else StepOut.next s

/-- The popup-mode key dispatch (main.rs:459-492).  Esc/`'q'`/`'h'` close the
popup; Up/Down wrap the selection (`checked_sub(1).unwrap_or(len-1)` resp.
`(sel+1) % len`), doing nothing on an empty list; Enter opens the selected
recent file after closing the popup.  Every other key hits the `_ => {}` arm,
which does NOT `continue`: control falls through to the normal-mode `match`
below it (main.rs:490-494). -/
def popup_step (s : AppState) (k : Key) : StepOut :=
  if k = Key.esc ∨ k = Key.char 'q' ∨ k = Key.char 'h' then
    StepOut.next { s with show_recent_files := false }
  else if k = Key.up then
    StepOut.next
      (if s.recent_files = [] then s
      else
        { s with recent_files_selected :=
            if s.recent_files_selected = 0 then s.recent_files.length - 1
            else s.recent_files_selected - 1 })
  else if k = Key.down then
    StepOut.next
      (if s.recent_files = [] then s
      else
        { s with recent_files_selected :=
            (s.recent_files_selected + 1) % s.recent_files.length })
  else if k = Key.enter then
    if s.recent_files = [] then StepOut.next s
    else
      match s.recent_files.get? s.recent_files_selected with
      | some p => StepOut.fs { s with show_recent_files := false } (FsAct.openRecent p)
      | none => StepOut.next s
  else normal_step s k

/-- One key event of `run_app` (main.rs:457-584): the popup dispatch runs
first when the popup is open, otherwise the normal-mode dispatch. -/
def handle_key (s : AppState) (k : Key) : StepOut :=
  if s.show_recent_files then popup_step s k else normal_step s k

/-- Effect of `refresh_directory` (main.rs:139-174) on the application state:
the listing is rebuilt and, unconditionally (main.rs:141-142),
`selected_index` and `file_tree_scroll` are reset to 0. -/
def app_refresh (s : AppState) (hasParent : Bool) (items : List FileEntry) : AppState :=
  { s with entries := refresh_directory hasParent items,
           selected_index := 0,
           file_tree_scroll := 0 }

/-! ## Concrete states and data used by witnesses and counterexamples -/

/-- A quiescent state: file of 5 lines, viewport of 20 rows, nothing
selected, popup closed. -/
def baseState : AppState :=
  { entries := [parentEntry],
    selected_index := 0,
    file_tree_scroll := 0,
    file_content_len := 5,
    scroll_offset := 0,
    visible_height := 20,
    show_chart := true,
    needs_resize := false,
    show_recent_files := false,
    use_nerd_fonts := true,
    recent_files := [],
    recent_files_selected := 0 }

/-- An 8-sample series with alternating `y` values. -/
def c5data : List (ℚ × ℚ) :=
  [(0, 0), (1, 1), (2, 0), (3, 1), (4, 0), (5, 1), (6, 0), (7, 1)]

/-- `baseState` with the recent-files popup open over one recent file. -/
def popupState : AppState :=
  { baseState with show_recent_files := true, recent_files := ["a"] }

/-- The raw two-file listing used by the refresh counterexample. -/
def c8items : List FileEntry :=
  [{ name := "a", is_dir := false }, { name := "b", is_dir := false }]

/-- `baseState` after a first refresh with `c8items`, with the second entry
selected. -/
def c8state : AppState :=
  { baseState with entries := refresh_directory true c8items, selected_index := 1 }

/-! ## Helper lemmas -/

/-- Parsed decimal of a small nonnegative integer literal, as produced by
`parseF64` on its digit string. -/
def dn (n : ℕ) : DecNum := { neg := false, mantInt := n, mantFrac := 0, fracLen := 0, ex := 0 }

theorem foldl_push_filterMap {α β : Type} (f : α → Option β) (l : List α) (acc : List β) :
    l.foldl (fun d a => d ++ (f a).toList) acc = acc ++ l.filterMap f := by
  induction l generalizing acc with
  | nil => simp
  | cons a t ih =>
    cases h : f a <;> simp [List.foldl_cons, h, ih, List.filterMap_cons]

theorem parse_chart_samples_eq (content : List Char) :
    parse_chart_samples content = (rustLines content).filterMap lineSample := by
  have h := foldl_push_filterMap lineSample (rustLines content) []
  simp only [List.nil_append] at h
  exact h

theorem samples_via_decnum (content : List Char) :
    parse_chart_samples content
      = ((rustLines content).filterMap lineSampleD).map
          (fun p : DecNum × DecNum => (p.1.toRat, p.2.toRat)) := by
  rw [parse_chart_samples_eq,
    show lineSample
        = (fun raw => Option.map (fun p : DecNum × DecNum => (p.1.toRat, p.2.toRat))
            (lineSampleD raw)) from rfl,
    List.map_filterMap]

theorem foldl_min_spec (t : List ℚ) (a : ℚ) :
    (t.foldl min a = a ∨ t.foldl min a ∈ t)
      ∧ t.foldl min a ≤ a ∧ ∀ x ∈ t, t.foldl min a ≤ x := by
  induction t generalizing a with
  | nil => simp
  | cons b u ih =>
    have h := ih (min a b)
    refine ⟨?_, ?_, ?_⟩
    · rcases h.1 with h1 | h1
      · rcases le_total a b with hab | hab
        · left
          rw [List.foldl_cons, h1, min_eq_left hab]
        · right
          rw [List.foldl_cons, h1, min_eq_right hab]
          exact List.mem_cons_self _ _
      · right
        exact List.mem_cons_of_mem _ h1
    · exact le_trans h.2.1 (min_le_left _ _)
    · intro x hx
      rcases List.mem_cons.mp hx with rfl | hx
      · exact le_trans h.2.1 (min_le_right _ _)
      · exact h.2.2 x hx

theorem foldl_max_spec (t : List ℚ) (a : ℚ) :
    (t.foldl max a = a ∨ t.foldl max a ∈ t)
      ∧ a ≤ t.foldl max a ∧ ∀ x ∈ t, x ≤ t.foldl max a := by
  induction t generalizing a with
  | nil => simp
  | cons b u ih =>
    have h := ih (max a b)
    refine ⟨?_, ?_, ?_⟩
    · rcases h.1 with h1 | h1
      · rcases le_total a b with hab | hab
        · right
          rw [List.foldl_cons, h1, max_eq_right hab]
          exact List.mem_cons_self _ _
        · left
          rw [List.foldl_cons, h1, max_eq_left hab]
      · right
        exact List.mem_cons_of_mem _ h1
    · exact le_trans (le_max_left _ _) h.2.1
    · intro x hx
      rcases List.mem_cons.mp hx with rfl | hx
      · exact le_trans (le_max_right _ _) h.2.1
      · exact h.2.2 x hx

theorem foldMinQ_spec (l : List ℚ) (h : l ≠ []) :
    foldMinQ l ∈ l ∧ ∀ x ∈ l, foldMinQ l ≤ x := by
  match l with
  | a :: t =>
    have hs := foldl_min_spec t a
    refine ⟨?_, ?_⟩
    · rcases hs.1 with h1 | h1
      · rw [foldMinQ, h1]
        exact List.mem_cons_self _ _
      · exact List.mem_cons_of_mem _ h1
    · intro x hx
      rcases List.mem_cons.mp hx with rfl | hx
      · exact hs.2.1
      · exact hs.2.2 x hx

theorem foldMaxQ_spec (l : List ℚ) (h : l ≠ []) :
    foldMaxQ l ∈ l ∧ ∀ x ∈ l, x ≤ foldMaxQ l := by
  match l with
  | a :: t =>
    have hs := foldl_max_spec t a
    refine ⟨?_, ?_⟩
    · rcases hs.1 with h1 | h1
      · rw [foldMaxQ, h1]
        exact List.mem_cons_self _ _
      · exact List.mem_cons_of_mem _ h1
    · intro x hx
      rcases List.mem_cons.mp hx with rfl | hx
      · exact hs.2.1
      · exact hs.2.2 x hx

/-! ## Claim theorems -/

/-- C1: the numeric extractor trims each line, skips empty and `#`/`;` comment
lines, splits the rest on runs of whitespace or commas, accepts a line exactly
when it has at least two tokens whose first two parse as finite values
(skipping, not aborting, on failure or non-finite values), and accumulates
accepted samples in source line order (the `filterMap` form); in particular
`"1 2\n#comment\n3 4\n"` yields `[(1,2),(3,4)]` and `"1 NaN\n2 3\n4 5\n"`
yields `[(2,3),(4,5)]`. -/
theorem c1_numeric_extractor :
    parse_chart_samples ("1 2\n#comment\n3 4\n".data) = [(1, 2), (3, 4)]
      ∧ parse_chart_samples ("1 NaN\n2 3\n4 5\n".data) = [(2, 3), (4, 5)]
      ∧ ∀ content : List Char,
          parse_chart_samples content = (rustLines content).filterMap lineSample := by
  refine ⟨?_, ?_, parse_chart_samples_eq⟩
  · rw [samples_via_decnum,
      show (rustLines ("1 2\n#comment\n3 4\n".data)).filterMap lineSampleD
          = [(dn 1, dn 2), (dn 3, dn 4)] from by decide]
    norm_num [DecNum.toRat, dn]
  · rw [samples_via_decnum,
      show (rustLines ("1 NaN\n2 3\n4 5\n".data)).filterMap lineSampleD
          = [(dn 2, dn 3), (dn 4, dn 5)] from by decide]
    norm_num [DecNum.toRat, dn]

/-- C2: the extraction result is valid chart data only when at least 2 samples
were extracted; with fewer than 2 valid lines the stored chart data is empty,
even when one line parsed successfully (e.g. for the single-line input
`"1 2\n"`). -/
theorem c2_two_sample_rule :
    (∀ content : List Char,
        (parse_chart_samples content).length < 2 → parse_chart_data content = [])
      ∧ parse_chart_samples ("1 2\n".data) = [(1, 2)]
      ∧ parse_chart_data ("1 2\n".data) = [] := by
  have hone : parse_chart_samples ("1 2\n".data) = [(1, 2)] := by
    rw [samples_via_decnum,
      show (rustLines ("1 2\n".data)).filterMap lineSampleD = [(dn 1, dn 2)] from by decide]
    norm_num [DecNum.toRat, dn]
  have hgen : ∀ content : List Char,
      (parse_chart_samples content).length < 2 → parse_chart_data content = [] := by
    intro c h
    rw [parse_chart_data]
    exact if_neg (by omega)
  exact ⟨hgen, hone, hgen _ (by rw [hone]; decide)⟩

/-- C2 witness: a concrete single-valid-line input gets empty chart data. -/
theorem c2_two_sample_rule_witness : parse_chart_data ("7 8\n".data) = [] :=
  c2_two_sample_rule.1 ("7 8\n".data) (by decide)

/-- C3: for any ≥2-sample series the stored bounds on each axis are
`[min − 0.05·|max − min|, max + 0.05·|max − min|]` of that axis's extrema,
except that a degenerate axis (`max = min`) gets `[v − 1, v + 1]`; concretely
`[(0,0),(10,10)]` gives bounds `[-0.5, 10.5]` on both axes and
`[(5,5),(5,5)]` gives `[4,6]` on both axes. -/
theorem c3_chart_bounds :
    (∀ data : List (ℚ × ℚ), 2 ≤ data.length →
      ∃ xm xM ym yM : ℚ,
        (xm ∈ data.map Prod.fst ∧ ∀ x ∈ data.map Prod.fst, xm ≤ x)
          ∧ (xM ∈ data.map Prod.fst ∧ ∀ x ∈ data.map Prod.fst, x ≤ xM)
          ∧ (ym ∈ data.map Prod.snd ∧ ∀ y ∈ data.map Prod.snd, ym ≤ y)
          ∧ (yM ∈ data.map Prod.snd ∧ ∀ y ∈ data.map Prod.snd, y ≤ yM)
          ∧ compute_bounds data
            = ((if xM = xm then (xm - 1, xM + 1)
                else (xm - |xM - xm| * (5 / 100), xM + |xM - xm| * (5 / 100))),
               (if yM = ym then (ym - 1, yM + 1)
                else (ym - |yM - ym| * (5 / 100), yM + |yM - ym| * (5 / 100)))))
      ∧ compute_bounds [(0, 0), (10, 10)] = ((-(1 / 2), 21 / 2), (-(1 / 2), 21 / 2))
      ∧ compute_bounds [(5, 5), (5, 5)] = ((4, 6), (4, 6)) := by
  refine ⟨?_, ?_, ?_⟩
  · intro data h
    have hne : data ≠ [] := by
      intro he
      rw [he] at h
      simp at h
    have hxne : data.map Prod.fst ≠ [] := by simpa using hne
    have hyne : data.map Prod.snd ≠ [] := by simpa using hne
    exact ⟨foldMinQ (data.map Prod.fst), foldMaxQ (data.map Prod.fst),
      foldMinQ (data.map Prod.snd), foldMaxQ (data.map Prod.snd),
      foldMinQ_spec _ hxne, foldMaxQ_spec _ hxne,
      foldMinQ_spec _ hyne, foldMaxQ_spec _ hyne, rfl⟩
  · norm_num [compute_bounds, foldMinQ, foldMaxQ]
  · norm_num [compute_bounds, foldMinQ, foldMaxQ]

/-- C3 witness: the general bounds characterization applied to a concrete
2-sample series. -/
theorem c3_chart_bounds_witness :
    ∃ xm xM ym yM : ℚ,
      (xm ∈ ([(0, 1), (2, 3)] : List (ℚ × ℚ)).map Prod.fst
          ∧ ∀ x ∈ ([(0, 1), (2, 3)] : List (ℚ × ℚ)).map Prod.fst, xm ≤ x)
        ∧ (xM ∈ ([(0, 1), (2, 3)] : List (ℚ × ℚ)).map Prod.fst
          ∧ ∀ x ∈ ([(0, 1), (2, 3)] : List (ℚ × ℚ)).map Prod.fst, x ≤ xM)
        ∧ (ym ∈ ([(0, 1), (2, 3)] : List (ℚ × ℚ)).map Prod.snd
          ∧ ∀ y ∈ ([(0, 1), (2, 3)] : List (ℚ × ℚ)).map Prod.snd, ym ≤ y)
        ∧ (yM ∈ ([(0, 1), (2, 3)] : List (ℚ × ℚ)).map Prod.snd
          ∧ ∀ y ∈ ([(0, 1), (2, 3)] : List (ℚ × ℚ)).map Prod.snd, y ≤ yM)
        ∧ compute_bounds [(0, 1), (2, 3)]
          = ((if xM = xm then (xm - 1, xM + 1)
              else (xm - |xM - xm| * (5 / 100), xM + |xM - xm| * (5 / 100))),
             (if yM = ym then (ym - 1, yM + 1)
              else (ym - |yM - ym| * (5 / 100), yM + |yM - ym| * (5 / 100)))) :=
  c3_chart_bounds.1 [(0, 1), (2, 3)] (by decide)

theorem getD_mem_of_lt {α : Type} {l : List α} {n : ℕ} (d : α) (h : n < l.length) :
    l.getD n d ∈ l := by
  rw [List.getD_eq_getElem?_getD, List.getElem?_eq_getElem h]
  simp [List.getElem_mem]

theorem bucketPick_length_le (data : List (ℚ × ℚ)) (bs : ℚ) (i : ℕ) :
    (bucketPick data bs i).length ≤ 2 := by
  simp only [bucketPick]
  split_ifs <;> simp

theorem flatMap_length_le (l : List ℕ) (f : ℕ → List (ℚ × ℚ))
    (h : ∀ a ∈ l, (f a).length ≤ 2) : (l.flatMap f).length ≤ 2 * l.length := by
  induction l with
  | nil => simp
  | cons a t ih =>
    have h1 := h a (List.mem_cons_self _ _)
    have h2 := ih (fun b hb => h b (List.mem_cons_of_mem _ hb))
    simp only [List.flatMap_cons, List.length_append, List.length_cons]
    omega

/-- C4: when `samples.len() ≤ target_count` the downsampler returns its input
unchanged, and whenever it returns on a non-empty input, both the first and
the last original sample are in the output. -/
theorem c4_downsample_identity :
    (∀ (data : List (ℚ × ℚ)) (t : ℕ), data.length ≤ t →
        downsample_with_peaks data t = some data)
      ∧ (∀ (data : List (ℚ × ℚ)) (t : ℕ) (res : List (ℚ × ℚ)), data ≠ [] →
          downsample_with_peaks data t = some res →
            data.getD 0 dPt ∈ res ∧ data.getD (data.length - 1) dPt ∈ res) := by
  constructor
  · intro data t h
    simp [downsample_with_peaks, h]
  · intro data t res hne h
    have hlen : 0 < data.length := List.length_pos.mpr hne
    by_cases hf : data.length ≤ t
    · simp only [downsample_with_peaks, if_pos hf, Option.some.injEq] at h
      subst h
      exact ⟨getD_mem_of_lt dPt hlen, getD_mem_of_lt dPt (by omega)⟩
    · by_cases h2 : data.length < 2 ∨ t < 2
      · simp [downsample_with_peaks, hf, h2] at h
      · simp only [downsample_with_peaks, if_neg hf, if_neg h2, Option.some.injEq] at h
        rw [← h]
        refine ⟨List.mem_cons_self _ _,
          List.mem_cons_of_mem _ (List.mem_append_right _ ?_)⟩
        simp

/-- C4 witness: the identity fast path and endpoint inclusion on a concrete
one-sample series. -/
theorem c4_downsample_identity_witness :
    downsample_with_peaks [((1 : ℚ), (2 : ℚ))] 3 = some [((1 : ℚ), (2 : ℚ))]
      ∧ ([(1, 2)] : List (ℚ × ℚ)).getD 0 dPt ∈ [((1 : ℚ), (2 : ℚ))] :=
  ⟨c4_downsample_identity.1 [(1, 2)] 3 (by decide),
    (c4_downsample_identity.2 [(1, 2)] 3 [(1, 2)] (by decide)
      (c4_downsample_identity.1 [(1, 2)] 3 (by decide))).1⟩

/-- C5 counterexample: the claimed bound `len ≤ target_count + 1` fails.  Each
of the `target_count − 2` buckets may emit two points (its min and its max),
so `downsample_with_peaks` on an 8-sample alternating series with
`target_points = 4` returns 6 points, exceeding `4 + 1`. -/
theorem c5_length_counterexample :
    downsample_with_peaks c5data 4
        = some [(0, 0), (1, 1), (2, 0), (4, 0), (5, 1), (7, 1)]
      ∧ ¬ (([(0, 0), (1, 1), (2, 0), (4, 0), (5, 1), (7, 1)] : List (ℚ × ℚ)).length
            ≤ 4 + 1) := by
  constructor
  · norm_num [downsample_with_peaks, c5data, bucketPick, scanMinMax, dPt, List.range']
    decide
  · decide

/-- C5 amended: the result of `downsample_with_peaks samples target_count`
(when defined) has length at most `max target_count (2·target_count − 2)` —
at most `target_count` on the `len ≤ target_count` fast path, and at most
`2·target_count − 2` otherwise (first + last point plus at most two points
from each of the `target_count − 2` buckets); the originally claimed
`target_count + 1` bound does not hold. -/
theorem c5_length_bound :
    ∀ (data : List (ℚ × ℚ)) (t : ℕ) (res : List (ℚ × ℚ)),
      downsample_with_peaks data t = some res → res.length ≤ max t (2 * t - 2) := by
  intro data t res h
  by_cases hf : data.length ≤ t
  · simp only [downsample_with_peaks, if_pos hf, Option.some.injEq] at h
    subst h
    exact le_trans hf (le_max_left _ _)
  · by_cases h2 : data.length < 2 ∨ t < 2
    · simp [downsample_with_peaks, hf, h2] at h
    · simp only [downsample_with_peaks, if_neg hf, if_neg h2, Option.some.injEq] at h
      have hb := flatMap_length_le (List.range' 1 (t - 2)) _
        (fun a _ => bucketPick_length_le data
          (((data.length - 2 : ℕ) : ℚ) / ((t - 2 : ℕ) : ℚ)) a)
      rw [List.length_range'] at hb
      push_neg at h2
      refine le_trans ?_ (le_max_right t (2 * t - 2))
      rw [← h]
      simp only [List.length_cons, List.length_append, List.length_nil]
      omega

/-- C5 witness: the amended bound applied to a concrete 3-sample series with
`target_points = 2`. -/
theorem c5_length_bound_witness :
    ([((0 : ℚ), (0 : ℚ)), (2, 0)] : List (ℚ × ℚ)).length ≤ max 2 (2 * 2 - 2) :=
  c5_length_bound [((0 : ℚ), (0 : ℚ)), (1, 0), (2, 0)] 2 _
    (by norm_num [downsample_with_peaks, List.range'])

/-- C10: `downsample_with_peaks` is well-defined exactly when
`samples.len() ≤ target_points` or `target_points ≥ 2`; for
`samples.len() > target_points` with `target_points < 2` the `usize`
subtraction `target_points - 2` underflows (`none`), and for
`target_points = 2` the bucket loop is empty so the result is exactly the
first and last samples. -/
theorem c10_downsample_totality :
    ∀ (data : List (ℚ × ℚ)) (t : ℕ),
      ((downsample_with_peaks data t).isSome ↔ (data.length ≤ t ∨ 2 ≤ t))
        ∧ (data.length > t → t < 2 → downsample_with_peaks data t = none)
        ∧ (t = 2 → 2 < data.length →
            downsample_with_peaks data t
              = some [data.getD 0 dPt, data.getD (data.length - 1) dPt]) := by
  intro data t
  refine ⟨?_, ?_, ?_⟩
  · by_cases h1 : data.length ≤ t
    · simp [downsample_with_peaks, h1]
    · by_cases h2 : data.length < 2 ∨ t < 2
      · simp only [downsample_with_peaks, if_neg h1, if_pos h2]
        simp
        omega
      · simp only [downsample_with_peaks, if_neg h1, if_neg h2]
        simp
        omega
  · intro hgt hlt
    simp only [downsample_with_peaks, if_neg (by omega : ¬ data.length ≤ t),
      if_pos (Or.inr hlt)]
  · intro ht hgt
    subst ht
    simp only [downsample_with_peaks, if_neg (by omega : ¬ data.length ≤ 2),
      if_neg (by omega : ¬ (data.length < 2 ∨ 2 < 2))]
    simp [List.range']

/-- C10 witness: the underflow case and the `target_points = 2` case on a
concrete 3-sample series. -/
theorem c10_downsample_totality_witness :
    downsample_with_peaks [((0 : ℚ), (0 : ℚ)), (1, 0), (2, 0)] 1 = none
      ∧ downsample_with_peaks [((0 : ℚ), (0 : ℚ)), (1, 0), (2, 0)] 2
          = some [([((0 : ℚ), (0 : ℚ)), (1, 0), (2, 0)] : List (ℚ × ℚ)).getD 0 dPt,
                  ([((0 : ℚ), (0 : ℚ)), (1, 0), (2, 0)] : List (ℚ × ℚ)).getD
                    (([((0 : ℚ), (0 : ℚ)), (1, 0), (2, 0)] : List (ℚ × ℚ)).length - 1) dPt] :=
  ⟨(c10_downsample_totality [((0 : ℚ), (0 : ℚ)), (1, 0), (2, 0)] 1).2.1
      (by decide) (by decide),
    (c10_downsample_totality [((0 : ℚ), (0 : ℚ)), (1, 0), (2, 0)] 2).2.2
      rfl (by decide)⟩

theorem handle_key_popup (s : AppState) (k : Key) (h : s.show_recent_files = true) :
    handle_key s k = popup_step s k := by
  simp [handle_key, h]

theorem entry_le_trans :
    ∀ a b c : FileEntry, entry_le a b = true → entry_le b c = true → entry_le a c = true := by
  intro a b c hab hbc
  cases ha : a.is_dir <;> cases hb : b.is_dir <;> cases hc : c.is_dir <;>
    simp [entry_le, ha, hb, hc] at * <;>
    try exact le_trans hab hbc

theorem entry_le_total :
    ∀ a b : FileEntry, (entry_le a b || entry_le b a) = true := by
  intro a b
  cases ha : a.is_dir <;> cases hb : b.is_dir <;>
    simp [entry_le, ha, hb] <;>
    exact le_total _ _

/-- C6 counterexample: the single-line scroll-down key `'j'`
(`saturating_add(1)`, main.rs:520-526) has no upper clamp: from offset 0 on a
5-line file with a 20-row viewport it produces offset 1, outside
`[0, max(0, len − visible_height)] = [0, 0]`, so the claimed invariant fails
for that operation. -/
theorem c6_scroll_counterexample :
    ¬ ((outState (normal_step baseState (Key.char 'j'))).scroll_offset
        ≤ max 0 (baseState.file_content_len - baseState.visible_height)) := by
  decide

/-- C6 amended: page-down (`'d'`/PageDown), Home and End always leave
`scroll_offset` within `[0, max(0, len − visible_height)]` (lower bound
automatic on `ℕ`, i.e. for the `usize` offset); single-line up `'k'` and
page-up (`'u'`/PageUp) stay within that range provided the offset was in
range before; but single-line down `'j'` merely increments the offset by one
with no upper clamp and can leave the range. -/
theorem c6_scroll_clamping :
    ∀ s : AppState,
      ((outState (normal_step s (Key.char 'd'))).scroll_offset
          ≤ s.file_content_len - s.visible_height)
        ∧ ((outState (normal_step s Key.pageDown)).scroll_offset
            ≤ s.file_content_len - s.visible_height)
        ∧ ((outState (normal_step s Key.home)).scroll_offset = 0)
        ∧ ((outState (normal_step s Key.endKey)).scroll_offset
            = s.file_content_len - s.visible_height)
        ∧ (s.scroll_offset ≤ s.file_content_len - s.visible_height →
            (outState (normal_step s (Key.char 'k'))).scroll_offset
              ≤ s.file_content_len - s.visible_height)
        ∧ (s.scroll_offset ≤ s.file_content_len - s.visible_height →
            (outState (normal_step s (Key.char 'u'))).scroll_offset
              ≤ s.file_content_len - s.visible_height)
        ∧ (s.scroll_offset ≤ s.file_content_len - s.visible_height →
            (outState (normal_step s Key.pageUp)).scroll_offset
              ≤ s.file_content_len - s.visible_height)
        ∧ ((outState (normal_step s (Key.char 'j'))).scroll_offset
            = s.scroll_offset + 1) := by
  intro s
  refine ⟨?_, ?_, rfl, rfl, ?_, ?_, ?_, rfl⟩
  · show min (s.scroll_offset + s.visible_height) (s.file_content_len - s.visible_height)
        ≤ s.file_content_len - s.visible_height
    exact min_le_right _ _
  · show min (s.scroll_offset + s.visible_height) (s.file_content_len - s.visible_height)
        ≤ s.file_content_len - s.visible_height
    exact min_le_right _ _
  · intro h
    show s.scroll_offset - 1 ≤ s.file_content_len - s.visible_height
    omega
  · intro h
    show s.scroll_offset - s.visible_height ≤ s.file_content_len - s.visible_height
    omega
  · intro h
    show s.scroll_offset - s.visible_height ≤ s.file_content_len - s.visible_height
    omega

/-- C6 witness: the clamped operations applied at a concrete in-range state. -/
theorem c6_scroll_clamping_witness :
    (outState (normal_step baseState (Key.char 'k'))).scroll_offset
      ≤ baseState.file_content_len - baseState.visible_height :=
  (c6_scroll_clamping baseState).2.2.2.2.1 (by decide)

/-- C7 counterexample: with the recent-files popup open, the key `'j'` is not
ignored: the popup `match` arm `_ => {}` (main.rs:490) does not `continue`, so
control falls through to the normal-mode handler, which scrolls the content
and sets `needs_resize`; the state changes. -/
theorem c7_popup_counterexample :
    handle_key popupState (Key.char 'j')
        = StepOut.next { popupState with scroll_offset := 1, needs_resize := true }
      ∧ handle_key popupState (Key.char 'j') ≠ StepOut.next popupState := by
  decide

/-- C7 amended: while the popup is open, Esc/`'q'`/`'h'` close it, Up/Down
move the selection with wrap-around, Enter opens the selected recent file and
closes the popup — but every other key is NOT ignored: it falls through to
the normal-mode handler (so keys bound there, e.g. `'j'` or `'c'`, still
mutate the application state while the popup is open; only keys unbound in
normal mode leave the state unchanged). -/
theorem c7_popup_keys :
    ∀ s : AppState, s.show_recent_files = true →
      (handle_key s Key.esc = StepOut.next { s with show_recent_files := false })
        ∧ (handle_key s (Key.char 'q') = StepOut.next { s with show_recent_files := false })
        ∧ (handle_key s (Key.char 'h') = StepOut.next { s with show_recent_files := false })
        ∧ (s.recent_files ≠ [] →
            handle_key s Key.up
              = StepOut.next
                  { s with recent_files_selected :=
                      if s.recent_files_selected = 0 then s.recent_files.length - 1
                      else s.recent_files_selected - 1 })
        ∧ (s.recent_files ≠ [] →
            handle_key s Key.down
              = StepOut.next
                  { s with recent_files_selected :=
                      (s.recent_files_selected + 1) % s.recent_files.length })
        ∧ (∀ p : String, s.recent_files.get? s.recent_files_selected = some p →
            handle_key s Key.enter
              = StepOut.fs { s with show_recent_files := false } (FsAct.openRecent p))
        ∧ (∀ k : Key, k ≠ Key.esc → k ≠ Key.up → k ≠ Key.down → k ≠ Key.enter →
            k ≠ Key.char 'q' → k ≠ Key.char 'h' → handle_key s k = normal_step s k) := by
  intro s h
  refine ⟨?_, ?_, ?_, ?_, ?_, ?_, ?_⟩
  · rw [handle_key_popup _ _ h, popup_step, if_pos (by simp)]
  · rw [handle_key_popup _ _ h, popup_step, if_pos (by simp)]
  · rw [handle_key_popup _ _ h, popup_step, if_pos (by simp)]
  · intro hne
    rw [handle_key_popup _ _ h, popup_step, if_neg (by simp), if_pos rfl, if_neg hne]
  · intro hne
    rw [handle_key_popup _ _ h, popup_step, if_neg (by simp), if_neg (by simp),
      if_pos rfl, if_neg hne]
  · intro p hp
    have hne : s.recent_files ≠ [] := by
      intro he
      rw [he] at hp
      simp [List.get?] at hp
    rw [handle_key_popup _ _ h, popup_step, if_neg (by simp), if_neg (by simp),
      if_neg (by simp), if_pos rfl, if_neg hne, hp]
  · intro k h1 h2 h3 h4 h5 h6
    rw [handle_key_popup _ _ h, popup_step, if_neg (by simp [h1, h5, h6]),
      if_neg h2, if_neg h3, if_neg h4]

/-- C7 witness: the popup contract applied at a concrete open-popup state. -/
theorem c7_popup_keys_witness :
    handle_key popupState Key.esc
      = StepOut.next { popupState with show_recent_files := false } :=
  (c7_popup_keys popupState rfl).1

/-- C8 counterexample: a manual refresh does NOT preserve the selection.
`refresh_directory` (main.rs:140-142) sets `selected_index` and
`file_tree_scroll` to 0 unconditionally; here the previous selection 1 is
still within the bounds of the (identical) new listing of length 3, yet after
the refresh the selection is 0. -/
theorem c8_refresh_counterexample :
    c8state.selected_index = 1
      ∧ c8state.selected_index < (refresh_directory true c8items).length
      ∧ (app_refresh c8state true c8items).selected_index = 0
      ∧ (app_refresh c8state true c8items).selected_index ≠ c8state.selected_index := by
  refine ⟨rfl, ?_, rfl, by decide⟩
  show 1 < (refresh_directory true c8items).length
  simp [refresh_directory, List.length_mergeSort, c8items]

/-- C8 amended: `selected_index` and `file_tree_scroll` are reset to 0 by
every `refresh_directory`, including the manual same-directory refresh
triggered by `'r'` (which issues exactly a refresh of the current directory);
they are never preserved across a refresh. -/
theorem c8_refresh_resets :
    (∀ (s : AppState) (hasParent : Bool) (items : List FileEntry),
        (app_refresh s hasParent items).selected_index = 0
          ∧ (app_refresh s hasParent items).file_tree_scroll = 0
          ∧ (app_refresh s hasParent items).entries = refresh_directory hasParent items)
      ∧ (∀ s : AppState, s.show_recent_files = false →
          handle_key s (Key.char 'r') = StepOut.fs s FsAct.refreshDir) := by
  constructor
  · intro s hasParent items
    exact ⟨rfl, rfl, rfl⟩
  · intro s h
    simp [handle_key, h, normal_step]

/-- C8 witness: the `'r'` key issues a refresh from a concrete normal-mode
state. -/
theorem c8_refresh_resets_witness :
    handle_key baseState (Key.char 'r') = StepOut.fs baseState FsAct.refreshDir :=
  c8_refresh_resets.2 baseState rfl

/-- C9: every produced listing has the synthetic `".."` entry first exactly
when the path has a parent (and is exempt from sorting); the remaining
entries are a permutation of the read entries in which no file precedes a
directory and, within a same-kind group, names are non-decreasing under
case-insensitive comparison. -/
theorem c9_directory_sorting :
    ∀ (hasParent : Bool) (items : List FileEntry),
      (hasParent = true → (refresh_directory hasParent items).head? = some parentEntry)
        ∧ (hasParent = false → refresh_directory hasParent items = items.mergeSort entry_le)
        ∧ ((refresh_directory hasParent items).drop (if hasParent then 1 else 0)).Perm items
        ∧ List.Pairwise
            (fun a b => (b.is_dir = true → a.is_dir = true)
              ∧ (a.is_dir = b.is_dir → a.name.toLower ≤ b.name.toLower))
            ((refresh_directory hasParent items).drop (if hasParent then 1 else 0)) := by
  intro hp items
  have hdrop : (refresh_directory hp items).drop (if hp then 1 else 0)
      = items.mergeSort entry_le := by
    cases hp <;> simp [refresh_directory]
  refine ⟨?_, ?_, ?_, ?_⟩
  · intro h
    subst h
    simp [refresh_directory]
  · intro h
    subst h
    simp [refresh_directory]
  · rw [hdrop]
    exact List.mergeSort_perm items entry_le
  · rw [hdrop]
    have hs := List.sorted_mergeSort entry_le_trans entry_le_total items
    refine hs.imp ?_
    intro a b hab
    cases ha : a.is_dir <;> cases hb : b.is_dir <;>
      simp [entry_le, ha, hb] at hab ⊢ <;>
      try exact hab

/-- C9 witness: the listing shape at a concrete parent-bearing directory. -/
theorem c9_directory_sorting_witness :
    (refresh_directory true []).head? = some parentEntry :=
  (c9_directory_sorting true []).1 rfl
